import Mathlib

/-!
Verification development for the pipecat-dictation window-control module
(`pipecat_window_functions.py`).  The module's own code (tool functions,
recording lifecycle, sequence persistence glue) is embedded directly; the
collaborators it imports (`ActionRunner`, `SequenceRecorder`,
`WindowController`) are not part of the repository snapshot, so those parts
are modelled from the specification, as flagged on each definition.
-/

set_option maxHeartbeats 1000000

namespace Pipecat

/-! ### Action data model -/

/-- Screen point with rational pixel coordinates (the Python code uses
numbers; we embed them as rationals). -/
structure Point where
  x : ℚ
  y : ℚ
  deriving DecidableEq

/-- Target reference for mouse actions: a literal point or a named variable. -/
inductive TargetRef where
  | lit (p : Point)
  | var (name : String)
  deriving DecidableEq

/-- Tagged-variant action model (spec section 3): one unit of UI automation. -/
inductive Action where
  | focusWindow (name : String)
  | moveMouse (tgt : TargetRef)
  | hover (tgt : TargetRef) (seconds : ℚ)
  | click (tgt : Option TargetRef) (button : String) (count : ℕ) (interval : ℚ)
  | sendText (text : String) (window : Option String) (send_newline : Bool)
  | key (name : String) (window : Option String)
  | wait (seconds : ℚ)
  | promptPoint (var : String) (message : Option String)
  deriving DecidableEq

/-! ### send_text_to_window (embedded from `pipecat_window_functions.py`,
lines 155-211) -/

/-- The part of the external WindowController state that
`send_text_to_window` consults: the registry of remembered window names and
the last used window. -/
structure WindowControllerState where
  window_map : List String
  last_used_window : Option String
  deriving DecidableEq

/-- A single keystroke-injection operation performed on the controller:
either typing a string of keystrokes or pressing one named key, each aimed at
an optional target window. -/
inductive KeyOp where
  | keystrokes (text : String) (window : Option String)
  | keyPress (name : String) (window : Option String)
  deriving DecidableEq

/-- Result of `send_text_to_window`: the success flag and error of the
returned dictionary, plus the ordered trace of injection operations the call
performed on the controller. -/
structure SendTextResult where
  success : Bool
  error : Option String
  ops : List KeyOp
  deriving DecidableEq

/-- Python truthiness test `if window_name and window_name not in
controller.window_map`: true exactly when a non-empty window name is given
that is not in the registry. -/
def badWindowName (c : WindowControllerState) : Option String → Bool
  | none => false
  | some w => !(w == "") && !(c.window_map.contains w)

/-- Embedding of `send_text_to_window(text, window_name, send_newline)`.
The injection calls on the controller are recorded as the `ops` trace; the
collaborator's calls themselves are assumed not to raise (their internals are
outside the repository). -/
def send_text_to_window (c : WindowControllerState) (text : String)
    (window_name : Option String) (send_newline : Bool) : SendTextResult :=
  if c.window_map = [] then
    ⟨false, some "No windows remembered. Use remember_window first.", []⟩
  else if badWindowName c window_name then
    ⟨false, some "Window not found", []⟩
  else if text = "escape" then
    ⟨true, none, [KeyOp.keyPress "escape" window_name]⟩
  else
    ⟨true, none,
      KeyOp.keystrokes text window_name ::
        (if send_newline then [KeyOp.keyPress "enter" window_name] else [])⟩

/-! ### Sequence execution engine

Modelled from the spec: the `ActionRunner` class imported by `run_actions`
is not in the repository snapshot; sections 4.1-4.2 of the spec describe the
variable resolver and the fail-fast execution engine, which we model here.
-/

/-- Variable environment: named points (spec section 3). -/
abbrev Env := List (String × Point)

/-- Look up a variable binding by exact name. -/
def lookupEnv (env : Env) (x : String) : Option Point :=
  (env.find? (fun p => p.1 == x)).map (fun p => p.2)

/-- Modelled from the spec: variable resolver (section 4.1).  A literal
point resolves to itself; a variable reference is looked up in the
environment, and an unbound name is an error (`none`). -/
def resolveRef (env : Env) : TargetRef → Option Point
  | TargetRef.lit p => some p
  | TargetRef.var n => lookupEnv env n

/-- Collaborator capabilities the engine dispatches to (WindowController
focus / keystroke injection, and the caller supplying prompt points).  Each
operation reports whether it succeeded; `promptFor` returns the supplied
point or `none` on timeout. -/
structure Collab where
  focusOk : String → Bool
  keysOk : String → Option String → Bool
  keyOk : String → Option String → Bool
  promptFor : String → Option Point

/-- Modelled from the spec: execute one action against the collaborators
(section 4.2), returning the updated environment or a per-action error
message. -/
def execAction (c : Collab) (env : Env) : Action → Except String Env
  | Action.focusWindow n =>
      if c.focusOk n then Except.ok env
      else Except.error ("Failed to focus window " ++ n)
  | Action.moveMouse tgt =>
      match resolveRef env tgt with
      | some _ => Except.ok env
      | none => Except.error "UnboundVariable"
  | Action.hover tgt _ =>
      match resolveRef env tgt with
      | some _ => Except.ok env
      | none => Except.error "UnboundVariable"
  | Action.click tgt _ _ _ =>
      match tgt with
      | none => Except.ok env
      | some t =>
          match resolveRef env t with
          | some _ => Except.ok env
          | none => Except.error "UnboundVariable"
  | Action.sendText txt w _ =>
      if c.keysOk txt w then Except.ok env else Except.error "Injection failed"
  | Action.key k w =>
      if c.keyOk k w then Except.ok env else Except.error "Injection failed"
  | Action.wait _ => Except.ok env
  | Action.promptPoint v _ =>
      match c.promptFor v with
      | some p => Except.ok ((v, p) :: env)
      | none => Except.error "PromptTimeout"

/-- One step entry of the execution report. -/
structure StepResult where
  index : ℕ
  success : Bool
  error : Option String
  deriving DecidableEq

/-- Execution report (spec section 4.2). -/
structure ExecReport where
  success : Bool
  steps : List StepResult
  failedAt : Option ℕ
  deriving DecidableEq

/-- Modelled from the spec: the fail-fast interpreter loop.  Runs actions in
order starting at step index `i`; stops at the first failure, recording its
index, and never looks at the remaining actions. -/
def runAux (c : Collab) : List Action → Env → ℕ → List StepResult × Option ℕ
  | [], _, _ => ([], none)
  | a :: rest, env, i =>
      match execAction c env a with
      | Except.ok env2 =>
          let r := runAux c rest env2 (i + 1)
          (⟨i, true, none⟩ :: r.1, r.2)
      | Except.error e => ([⟨i, false, some e⟩], some i)

/-- Modelled from the spec: `run(sequence, initialVars)` of the execution
engine behind `run_actions` (spec section 4.2). -/
def run (c : Collab) (actions : List Action) (vars : Env) : ExecReport :=
  let r := runAux c actions vars 0
  ⟨r.2.isNone, r.1, r.2⟩

/-! ### Serialization (spec section 6, ordered-list-of-records shape)

Modelled from the spec: the on-disk shape used by `save_sequence` /
`run_actions_file` is JSON produced by `json.dump` of loosely-typed dicts;
the spec fixes it as a record per action carrying a `type` discriminator and
only that variant's fields (others absent). -/

/-- One serialized action record: the `type` discriminator plus every
possible field as an optional slot; absent fields are `none`. -/
structure ActionRecord where
  type : String
  name : Option String := none
  tgt : Option TargetRef := none
  button : Option String := none
  count : Option ℕ := none
  interval : Option ℚ := none
  seconds : Option ℚ := none
  text : Option String := none
  window : Option String := none
  send_newline : Option Bool := none
  key : Option String := none
  var : Option String := none
  message : Option String := none
  deriving DecidableEq

/-- Modelled from the spec: serialize one action to its record, setting only
the variant's own fields. -/
def serialize : Action → ActionRecord
  | Action.focusWindow n => { type := "focus_window", name := some n }
  | Action.moveMouse t => { type := "move_mouse", tgt := some t }
  | Action.hover t s => { type := "hover", tgt := some t, seconds := some s }
  | Action.click t b c iv =>
      { type := "click", tgt := t, button := some b, count := some c,
        interval := some iv }
  | Action.sendText txt w nl =>
      { type := "send_text", text := some txt, window := w,
        send_newline := some nl }
  | Action.key k w => { type := "key", key := some k, window := w }
  | Action.wait s => { type := "wait", seconds := some s }
  | Action.promptPoint v m =>
      { type := "prompt_point", var := some v, message := m }

/-- Modelled from the spec: deserialize one record, dispatching on the
`type` discriminator and requiring the variant's mandatory fields. -/
def deserialize (r : ActionRecord) : Option Action :=
  if r.type = "focus_window" then r.name.map Action.focusWindow
  else if r.type = "move_mouse" then r.tgt.map Action.moveMouse
  else if r.type = "hover" then
    match r.tgt, r.seconds with
    | some t, some s => some (Action.hover t s)
    | _, _ => none
  else if r.type = "click" then
    match r.button, r.count, r.interval with
    | some b, some c, some iv => some (Action.click r.tgt b c iv)
    | _, _, _ => none
  else if r.type = "send_text" then
    match r.text, r.send_newline with
    | some txt, some nl => some (Action.sendText txt r.window nl)
    | _, _ => none
  else if r.type = "key" then r.key.map (fun k => Action.key k r.window)
  else if r.type = "wait" then r.seconds.map Action.wait
  else if r.type = "prompt_point" then
    r.var.map (fun v => Action.promptPoint v r.message)
  else none

/-- Serialize a whole action sequence in order. -/
def serializeSeq (s : List Action) : List ActionRecord :=
  s.map serialize

/-- Deserialize a whole record list; any bad record fails the load. -/
def deserializeSeq : List ActionRecord → Option (List Action)
  | [] => some []
  | r :: rest =>
      match deserialize r, deserializeSeq rest with
      | some a, some s => some (a :: s)
      | _, _ => none

/-! ### Temporal Coalescer (spec section 4.3)

Modelled from the spec: the `SequenceRecorder` class used by
`start_action_recording` / `stop_action_recording` is not in the repository
snapshot.  The coalescer below follows spec section 4.3: idle-gap waits
(never two in a row), click merging inside `double_click_window`, move-burst
collapsing, key passthrough, and F-key hotkey interception. -/

/-- Identity of a pressed key: an F-key (`fnKey n` is Fn) or any other
named key. -/
inductive KeyId where
  | fnKey (n : ℤ)
  | other (name : String)
  deriving DecidableEq

/-- Printable name of a key, as stored in emitted `Key` actions. -/
def keyIdName : KeyId → String
  | KeyId.fnKey n => "f" ++ toString n
  | KeyId.other s => s

/-- Raw input event (spec section 3): pointer and key events with
monotonic rational timestamps. -/
inductive RawEvent where
  | move (p : Point) (t : ℚ)
  | buttonDown (button : String) (p : Point) (t : ℚ)
  | buttonUp (button : String) (p : Point) (t : ℚ)
  | keyDown (k : KeyId) (t : ℚ)
  | keyUp (k : KeyId) (t : ℚ)
  deriving DecidableEq

/-- Timestamp of a raw event. -/
def eventTime : RawEvent → ℚ
  | RawEvent.move _ t => t
  | RawEvent.buttonDown _ _ t => t
  | RawEvent.buttonUp _ _ t => t
  | RawEvent.keyDown _ t => t
  | RawEvent.keyUp _ t => t

/-- Recorder configuration (the constructor arguments of
`SequenceRecorder` in `start_action_recording`). -/
structure RecorderConfig where
  default_window : Option String := none
  window_key_map : List (ℤ × String) := []
  min_wait : ℚ := 1 / 4
  double_click_window : ℚ := 7 / 20
  deriving DecidableEq

/-- Look up an F-key number in the hotkey map. -/
def lookupKey (m : List (ℤ × String)) (n : ℤ) : Option String :=
  (m.find? (fun p => p.1 == n)).map (fun p => p.2)

/-- A completed click (or run of merged clicks) awaiting either a further
merge within `double_click_window` or a flush. -/
structure PendingClick where
  button : String
  point : Point
  count : ℕ
  time : ℚ
  deriving DecidableEq

/-- Coalescer accumulation state.  `out` is the emitted action list in
reverse order; the pending slots buffer a move burst, an unmatched
button-down, and a mergeable click. -/
structure CoalState where
  out : List Action
  lastTime : Option ℚ
  pendingMove : Option Point
  pendingPress : Option (String × Point × ℚ)
  pendingClick : Option PendingClick
  curWindow : Option String
  deriving DecidableEq

/-- Initial coalescer state for a fresh recording session. -/
def initState (cfg : RecorderConfig) : CoalState :=
  ⟨[], none, none, none, none, cfg.default_window⟩

/-- Emit a Wait onto the (reversed) output, merging with a directly
preceding Wait so that no two Waits are ever adjacent (spec idle-gap
rule). -/
def pushWait (w : ℚ) (out : List Action) : List Action :=
  match out with
  | Action.wait w0 :: rest => Action.wait (w0 + w) :: rest
  | _ => Action.wait w :: out

/-- Flush a pending merged click into the output as a `Click` action. -/
def flushClick (st : CoalState) : CoalState :=
  match st.pendingClick with
  | none => st
  | some pc =>
      { st with
        out := Action.click (some (TargetRef.lit pc.point)) pc.button pc.count 0
          :: st.out,
        pendingClick := none }

/-- Flush a pending move burst into the output as a single `MoveMouse` to
the final coordinate. -/
def flushMove (st : CoalState) : CoalState :=
  match st.pendingMove with
  | none => st
  | some p =>
      { st with
        out := Action.moveMouse (TargetRef.lit p) :: st.out,
        pendingMove := none }

/-- Dispatch one raw event after gap handling: buffer moves, pair
button-down/up into pending clicks (merging with a live pending click on the
same button and point), and emit key or hotkey-focus actions. -/
def dispatch (cfg : RecorderConfig) (st : CoalState) : RawEvent → CoalState
  | RawEvent.move p _ => { st with pendingMove := some p }
  | RawEvent.buttonDown b p t =>
      { flushMove st with pendingPress := some (b, p, t) }
  | RawEvent.buttonUp b p t =>
      match st.pendingPress with
      | none => st
      | some (b0, _, _) =>
          if b0 = b then
            match st.pendingClick with
            | some pc =>
                if pc.button = b ∧ pc.point = p then
                  { st with
                    pendingClick := some ⟨b, p, pc.count + 1, t⟩,
                    pendingPress := none }
                else
                  { flushClick st with
                    pendingClick := some ⟨b, p, 1, t⟩,
                    pendingPress := none }
            | none =>
                { st with
                  pendingClick := some ⟨b, p, 1, t⟩,
                  pendingPress := none }
          else { st with pendingPress := none }
  | RawEvent.keyDown k _ =>
      let st2 := flushMove (flushClick st)
      match k with
      | KeyId.fnKey n =>
          match lookupKey cfg.window_key_map n with
          | some w =>
              { st2 with
                out := Action.focusWindow w :: st2.out,
                curWindow := some w }
          | none =>
              { st2 with out := Action.key (keyIdName k) st2.curWindow :: st2.out }
      | KeyId.other s =>
          { st2 with out := Action.key s st2.curWindow :: st2.out }
  | RawEvent.keyUp _ _ => st

/-- Expire a pending click whose merge window has closed: once the current
event is `double_click_window` or more after the pending click, no further
merge can happen and the click is flushed (before any idle-gap Wait, which
keeps the spec scenario order Click-then-Wait). -/
def expireClick (cfg : RecorderConfig) (t : ℚ) (st : CoalState) : CoalState :=
  match st.pendingClick with
  | some pc =>
      if cfg.double_click_window ≤ t - pc.time then flushClick st else st
  | none => st

/-- Idle-gap rule: when the gap since the previous event exceeds
`min_wait`, flush the buffered move burst (it happened before the idle
time) and emit a Wait for the gap. -/
def gapWait (cfg : RecorderConfig) (t : ℚ) (st : CoalState) : CoalState :=
  match st.lastTime with
  | some lt =>
      if cfg.min_wait < t - lt then
        let stm := flushMove st
        { stm with out := pushWait (t - lt) stm.out }
      else st
  | none => st

/-- Feed one raw event to the coalescer: expire a stale pending click,
insert an idle-gap Wait when the gap since the previous event exceeds
`min_wait`, dispatch the event, and advance the clock. -/
def feed (cfg : RecorderConfig) (st : CoalState) (e : RawEvent) : CoalState :=
  let t := eventTime e
  let st3 := dispatch cfg (gapWait cfg t (expireClick cfg t st)) e
  { st3 with lastTime := some t }

/-- Run the coalescer over a whole event stream and flush remaining buffers
(the `stop` flush of spec section 4.3), producing the action sequence in
emission order. -/
def recordActions (cfg : RecorderConfig) (events : List RawEvent) :
    List Action :=
  (flushMove (flushClick (events.foldl (feed cfg) (initState cfg)))).out.reverse

/-! ### Recording lifecycle and sequence persistence (embedded from
`pipecat_window_functions.py`, lines 493-567 and 735-835) -/

/-- Modelled from the spec: the recording session owned by the module-global
`_recorder`.  Its configuration and captured raw events are held here;
`running` reflects `is_running()` (true iff the session state is
Recording), and `stop` produces the coalesced action sequence. -/
structure SequenceRecorder where
  config : RecorderConfig
  running : Bool
  events : List RawEvent
  deriving DecidableEq

/-- The recorded output a session hands over on `stop`: the coalescer run
over the captured events. -/
def recordOutput (r : SequenceRecorder) : List Action :=
  recordActions r.config r.events

/-- The module-global state of `pipecat_window_functions.py`: the
`_recorder` singleton slot and `_last_recorded_actions`. -/
structure GlobalState where
  recorder : Option SequenceRecorder
  lastRecorded : Option (List Action)
  deriving DecidableEq

/-- Python's `_recorder and _recorder.is_running()`: an active recording
exists. -/
def isRunning (g : GlobalState) : Bool :=
  g.recorder.any (fun r => r.running)

/-- One entry of the `focus_hotkeys` argument of `start_action_recording`.
`fn` is the result of `int(item.get("fn"))` (`none` models every case where
that conversion raises: missing field, non-numeric value); `window` is the
raw field, `none` when absent. -/
structure HotkeyItem where
  fn : Option ℤ
  window : Option String
  deriving DecidableEq

/-- `str(item.get("window"))`: a missing field stringifies to the literal
text "None". -/
def itemName (i : HotkeyItem) : String :=
  match i.window with
  | some s => s
  | none => "None"

/-- Python dict assignment `key_map[fn] = name`: replace any existing
binding of the key. -/
def insertKey (m : List (ℤ × String)) (k : ℤ) (v : String) :
    List (ℤ × String) :=
  m.filter (fun p => p.1 ≠ k) ++ [(k, v)]

/-- Process one `focus_hotkeys` item exactly as the `for` loop body in
`start_action_recording` does: a failed `int()` conversion is swallowed by
`except: pass`, and an out-of-range `fn` or empty name silently skips the
item. -/
def hotkeyStep (m : List (ℤ × String)) (i : HotkeyItem) : List (ℤ × String) :=
  match i.fn with
  | none => m
  | some fn =>
      let name := itemName i
      if 1 ≤ fn ∧ fn ≤ 12 ∧ name ≠ "" then insertKey m fn name else m

/-- The `for item in focus_hotkeys` accumulation loop. -/
def parseHotkeysAux (m : List (ℤ × String)) :
    List HotkeyItem → List (ℤ × String)
  | [] => m
  | i :: rest => parseHotkeysAux (hotkeyStep m i) rest

/-- The full hotkey-map construction of `start_action_recording`
(lines 753-763). -/
def parseHotkeys (items : List HotkeyItem) : List (ℤ × String) :=
  parseHotkeysAux [] items

/-- Result dictionary of `start_action_recording`. -/
structure StartResult where
  success : Bool
  error : Option String
  focus_hotkeys : List (ℤ × String)
  deriving DecidableEq

/-- Embedding of `start_action_recording` (lines 735-777): reject when a
recording is already running, otherwise parse the hotkey map, create a fresh
running recorder and install it in the global slot. -/
def start_action_recording (g : GlobalState) (default_window : Option String)
    (focus_hotkeys : Option (List HotkeyItem)) (mw dcw : ℚ) :
    StartResult × GlobalState :=
  if isRunning g then
    (⟨false, some "Recording already in progress", []⟩, g)
  else
    let key_map := parseHotkeys (focus_hotkeys.getD [])
    let r : SequenceRecorder := ⟨⟨default_window, key_map, mw, dcw⟩, true, []⟩
    (⟨true, none, key_map⟩, ⟨some r, g.lastRecorded⟩)

/-- Result dictionary of `stop_action_recording`. -/
structure StopResult where
  success : Bool
  error : Option String
  count : Option ℕ
  actions : Option (List Action)
  file : Option String
  deriving DecidableEq

/-- Embedding of `stop_action_recording` (lines 789-835).  File writing is
outside the embedding, so its outcome is the `writeOk` parameter; on a write
failure the function has already cleared the recorder and stored the actions,
and returns them inside the error dictionary. -/
def stop_action_recording (g : GlobalState) (save_to_file : Option String)
    (writeOk : Bool) : StopResult × GlobalState :=
  match g.recorder with
  | none => (⟨false, some "No active recording", none, none, none⟩, g)
  | some r =>
      if r.running then
        let actions := recordOutput r
        let g2 : GlobalState := ⟨none, some actions⟩
        match save_to_file with
        | some p =>
            if writeOk then
              (⟨true, none, some actions.length, some actions, some p⟩, g2)
            else
              (⟨false, some "Failed to save file", none, some actions, none⟩, g2)
        | none =>
            (⟨true, none, some actions.length, some actions, none⟩, g2)
      else (⟨false, some "No active recording", none, none, none⟩, g)

/-- Whitespace strip on a character list (both ends). -/
def stripChars (l : List Char) : List Char :=
  ((l.dropWhile Char.isWhitespace).reverse.dropWhile Char.isWhitespace).reverse

/-- Python `str.strip()`: remove leading and trailing whitespace. -/
def pyStrip (s : String) : String := ⟨stripChars s.data⟩

/-- Result of `save_sequence`: the success flag, error, and the action list
actually written to the sequence file (`none` when nothing was written). -/
structure SaveResult where
  success : Bool
  error : Option String
  savedActions : Option (List Action)
  deriving DecidableEq

/-- Embedding of the action-selection logic of `save_sequence`
(lines 493-537).  Filesystem writes are assumed to succeed (the write-failure
branch is not under test here); index bookkeeping and slug-path selection do
not affect which actions are saved.  Note the Python truthiness check `if
file_path is None and _last_recorded_actions`: an empty recorded list is
falsy and is treated as no recording. -/
def save_sequence (g : GlobalState) (name : String)
    (actions : Option (List Action)) (file_path : Option String) : SaveResult :=
  if pyStrip name = "" then ⟨false, some "Name is required", none⟩
  else
    match actions with
    | some a => ⟨true, none, some a⟩
    | none =>
        match file_path with
        | some _ => ⟨true, none, none⟩
        | none =>
            match g.lastRecorded with
            | some last =>
                if last = [] then
                  ⟨false,
                    some "No actions provided and no recent recording available",
                    none⟩
                else ⟨true, none, some last⟩
            | none =>
                ⟨false,
                  some "No actions provided and no recent recording available",
                  none⟩

/-! ### Derived observations used by the stated properties -/

/-- Whether an action is a `Wait`. -/
def isWait : Action → Bool
  | Action.wait _ => true
  | _ => false

/-- No two consecutive actions of the list are both `Wait` (the idle-gap
invariant of spec section 3). -/
def noConsecWaits (l : List Action) : Prop :=
  List.Chain' (fun a b => isWait a = false ∨ isWait b = false) l

/-- The click counts of a sequence, in order, ignoring all other actions. -/
def clicksOf (l : List Action) : List ℕ :=
  l.filterMap (fun a =>
    match a with
    | Action.click _ _ c _ => some c
    | _ => none)

end Pipecat

namespace Pipecat

/-! ### Theorems -/

/-- Round-trip of a single action through its serialized record. -/
theorem serialize_roundtrip_action (a : Action) :
    deserialize (serialize a) = some a := by
  cases a <;> rfl

/-- C7: serializing an Action Sequence to the ordered-list-of-records
representation and deserializing yields the same sequence, field for field,
in the same order. -/
theorem serialize_roundtrip (s : List Action) :
    deserializeSeq (serializeSeq s) = some s := by
  induction s with
  | nil => rfl
  | cons a rest ih =>
      show deserializeSeq (serialize a :: serializeSeq rest) = _
      simp [deserializeSeq, serialize_roundtrip_action, ih]

/-- Prepending a non-Wait action preserves the idle-gap invariant. -/
theorem noConsecWaits_cons (a : Action) (ha : isWait a = false)
    (l : List Action) (h : noConsecWaits l) : noConsecWaits (a :: l) := by
  unfold noConsecWaits at *
  rw [List.chain'_cons']
  exact ⟨fun y _ => Or.inl ha, h⟩

/-- Prepending a Wait in front of a non-Wait head preserves the
invariant. -/
theorem noConsecWaits_wait_cons (w : ℚ) (a : Action) (ha : isWait a = false)
    (l : List Action) (h : noConsecWaits (a :: l)) :
    noConsecWaits (Action.wait w :: a :: l) := by
  unfold noConsecWaits at *
  rw [List.chain'_cons]
  exact ⟨Or.inr ha, h⟩

/-- `pushWait` preserves the idle-gap invariant: it merges into a trailing
Wait instead of stacking a second one. -/
theorem pushWait_chain (w : ℚ) (l : List Action) (h : noConsecWaits l) :
    noConsecWaits (pushWait w l) := by
  cases l with
  | nil =>
      unfold noConsecWaits
      simp [pushWait]
  | cons a rest =>
      cases a
      case wait w0 =>
        unfold noConsecWaits at *
        simp only [pushWait]
        rw [List.chain'_cons'] at h ⊢
        refine ⟨fun y hy => ?_, h.2⟩
        rcases h.1 y hy with h1 | h1
        · simp [isWait] at h1
        · exact Or.inr h1
      all_goals
        refine noConsecWaits_wait_cons w _ ?_ _ h
      all_goals rfl

/-- `flushClick` emits a Click, never a Wait, so it preserves the
invariant. -/
theorem flushClick_chain (st : CoalState) (h : noConsecWaits st.out) :
    noConsecWaits (flushClick st).out := by
  unfold flushClick
  cases st.pendingClick with
  | none => exact h
  | some pc =>
      refine noConsecWaits_cons _ ?_ _ h
      rfl

/-- `flushMove` emits a MoveMouse, never a Wait, so it preserves the
invariant. -/
theorem flushMove_chain (st : CoalState) (h : noConsecWaits st.out) :
    noConsecWaits (flushMove st).out := by
  unfold flushMove
  cases st.pendingMove with
  | none => exact h
  | some p =>
      refine noConsecWaits_cons _ ?_ _ h
      rfl

/-- Click expiry preserves the invariant. -/
theorem expireClick_chain (cfg : RecorderConfig) (t : ℚ) (st : CoalState)
    (h : noConsecWaits st.out) : noConsecWaits (expireClick cfg t st).out := by
  unfold expireClick
  cases st.pendingClick with
  | none => exact h
  | some pc =>
      by_cases hc : cfg.double_click_window ≤ t - pc.time
      · simpa [hc] using flushClick_chain st h
      · simpa [hc] using h

/-- The idle-gap step preserves the invariant. -/
theorem gapWait_chain (cfg : RecorderConfig) (t : ℚ) (st : CoalState)
    (h : noConsecWaits st.out) : noConsecWaits (gapWait cfg t st).out := by
  unfold gapWait
  cases st.lastTime with
  | none => exact h
  | some lt =>
      by_cases hc : cfg.min_wait < t - lt
      · simpa [hc] using pushWait_chain (t - lt) _ (flushMove_chain st h)
      · simpa [hc] using h

/-- Event dispatch preserves the invariant: it only ever emits Click,
MoveMouse, FocusWindow or Key actions. -/
theorem dispatch_chain (cfg : RecorderConfig) (st : CoalState) (e : RawEvent)
    (h : noConsecWaits st.out) : noConsecWaits (dispatch cfg st e).out := by
  cases e with
  | move p t => simpa [dispatch] using h
  | buttonDown b p t => simpa [dispatch] using flushMove_chain st h
  | buttonUp b p t =>
      unfold dispatch
      cases hp : st.pendingPress with
      | none => exact h
      | some pr =>
          obtain ⟨b0, p0, t0⟩ := pr
          by_cases hb : b0 = b
          · simp only [hb, if_pos rfl]
            cases hc : st.pendingClick with
            | none => exact h
            | some pc =>
                by_cases hm : pc.button = b ∧ pc.point = p
                · simpa [hm] using h
                · simpa [hm] using flushClick_chain st h
          · simpa [hb] using h
  | keyDown k t =>
      simp only [dispatch]
      cases k with
      | fnKey n =>
          cases hl : lookupKey cfg.window_key_map n with
          | none =>
              simp only [hl]
              refine noConsecWaits_cons _ ?_ _
                (flushMove_chain _ (flushClick_chain st h))
              rfl
          | some w =>
              simp only [hl]
              refine noConsecWaits_cons _ ?_ _
                (flushMove_chain _ (flushClick_chain st h))
              rfl
      | other s =>
          refine noConsecWaits_cons _ ?_ _
            (flushMove_chain _ (flushClick_chain st h))
          rfl
  | keyUp k t => simpa [dispatch] using h

/-- Feeding one event preserves the invariant. -/
theorem feed_chain (cfg : RecorderConfig) (st : CoalState) (e : RawEvent)
    (h : noConsecWaits st.out) : noConsecWaits (feed cfg st e).out := by
  unfold feed
  exact dispatch_chain cfg _ e (gapWait_chain cfg _ _ (expireClick_chain cfg _ st h))

/-- Folding the whole event stream preserves the invariant. -/
theorem foldl_feed_chain (cfg : RecorderConfig) :
    ∀ (events : List RawEvent) (st : CoalState),
      noConsecWaits st.out → noConsecWaits (events.foldl (feed cfg) st).out
  | [], _, h => h
  | e :: rest, st, h => foldl_feed_chain cfg rest _ (feed_chain cfg st e h)

/-- The invariant is preserved by reversing the emitted list (adjacency is
symmetric). -/
theorem noConsecWaits_reverse (l : List Action) (h : noConsecWaits l) :
    noConsecWaits l.reverse := by
  unfold noConsecWaits at *
  rw [List.chain'_reverse]
  exact List.Chain'.imp (fun a b hab => Or.symm hab) h

/-- C5: for every raw input event stream and configuration, the action
sequence emitted by the Temporal Coalescer contains no two consecutive
Wait actions. -/
theorem coalescer_no_consecutive_waits (cfg : RecorderConfig)
    (events : List RawEvent) : noConsecWaits (recordActions cfg events) := by
  unfold recordActions
  apply noConsecWaits_reverse
  apply flushMove_chain
  apply flushClick_chain
  apply foldl_feed_chain
  unfold noConsecWaits
  simp [initState]

/-- C6: two button-down/up pairs on the same button at the same point,
separated by gap `g`: if `g < double_click_window` the coalescer emits a
single Click with count 2, and if `g ≥ double_click_window` it emits two
separate Clicks with count 1 each (click counts observed through
`clicksOf`, which ignores the interleaved Wait actions). -/
theorem click_merge_rule (cfg : RecorderConfig) (b : String) (p : Point)
    (t0 g : ℚ) (hmw : 0 ≤ cfg.min_wait) :
    (g < cfg.double_click_window →
      clicksOf (recordActions cfg
        [RawEvent.buttonDown b p t0, RawEvent.buttonUp b p t0,
         RawEvent.buttonDown b p (t0 + g), RawEvent.buttonUp b p (t0 + g)]) =
        [2]) ∧
    (cfg.double_click_window ≤ g →
      clicksOf (recordActions cfg
        [RawEvent.buttonDown b p t0, RawEvent.buttonUp b p t0,
         RawEvent.buttonDown b p (t0 + g), RawEvent.buttonUp b p (t0 + g)]) =
        [1, 1]) := by
  have e3sub : t0 + g - t0 = g := by ring
  have ezero : t0 + g - (t0 + g) = 0 := by ring
  have hz2 : ¬ cfg.min_wait < (0 : ℚ) := not_lt.mpr hmw
  constructor
  · intro hA
    by_cases hw : cfg.min_wait < g
    · simp [recordActions, feed, expireClick, gapWait, dispatch, flushClick,
        flushMove, pushWait, initState, eventTime, clicksOf, sub_self, e3sub,
        ezero, hz2, hw, not_le.mpr hA]
    · simp [recordActions, feed, expireClick, gapWait, dispatch, flushClick,
        flushMove, pushWait, initState, eventTime, clicksOf, sub_self, e3sub,
        ezero, hz2, hw, not_le.mpr hA]
  · intro hB
    by_cases hw : cfg.min_wait < g
    · simp [recordActions, feed, expireClick, gapWait, dispatch, flushClick,
        flushMove, pushWait, initState, eventTime, clicksOf, sub_self, e3sub,
        ezero, hz2, hw, hB]
    · simp [recordActions, feed, expireClick, gapWait, dispatch, flushClick,
        flushMove, pushWait, initState, eventTime, clicksOf, sub_self, e3sub,
        ezero, hz2, hw, hB]

/-- C6 witness: the merge rule evaluated at gaps 1/10 (inside the default
7/20 window) and 1/2 (outside it). -/
theorem click_merge_rule_witness :
    clicksOf (recordActions ⟨none, [], 1 / 4, 7 / 20⟩
      [RawEvent.buttonDown "left" ⟨0, 0⟩ 0, RawEvent.buttonUp "left" ⟨0, 0⟩ 0,
       RawEvent.buttonDown "left" ⟨0, 0⟩ (0 + 1 / 10),
       RawEvent.buttonUp "left" ⟨0, 0⟩ (0 + 1 / 10)]) = [2] ∧
    clicksOf (recordActions ⟨none, [], 1 / 4, 7 / 20⟩
      [RawEvent.buttonDown "left" ⟨0, 0⟩ 0, RawEvent.buttonUp "left" ⟨0, 0⟩ 0,
       RawEvent.buttonDown "left" ⟨0, 0⟩ (0 + 1 / 2),
       RawEvent.buttonUp "left" ⟨0, 0⟩ (0 + 1 / 2)]) = [1, 1] := by
  constructor
  · exact (click_merge_rule ⟨none, [], 1 / 4, 7 / 20⟩ "left" ⟨0, 0⟩ 0 (1 / 10)
      (by norm_num)).1 (by norm_num)
  · exact (click_merge_rule ⟨none, [], 1 / 4, 7 / 20⟩ "left" ⟨0, 0⟩ 0 (1 / 2)
      (by norm_num)).2 (by norm_num)

/-- C2 counterexample: with a remembered window "editor", sending the text
"escape" does not type the literal text "escape" followed by Enter; the
code's special case sends a single Escape key press instead (and no
newline), so the claim "the literal text is always what is typed, for every
value of text" is false at text = "escape". -/
theorem send_text_escape_not_literal :
    ¬ ((send_text_to_window ⟨["editor"], some "editor"⟩ "escape" none true).ops =
        [KeyOp.keystrokes "escape" none, KeyOp.keyPress "enter" none]) := by
  decide

/-- C2 (amended): for every text other than the exact string "escape", when
at least one window is remembered and the requested window name is valid,
`send_text_to_window` types the literal text into the target window,
followed by an Enter key press iff `send_newline` is true; the input
"escape" instead sends a single Escape key press and no newline. -/
theorem send_text_literal (c : WindowControllerState) (text : String)
    (window_name : Option String) (send_newline : Bool)
    (hmap : c.window_map ≠ [])
    (hwn : badWindowName c window_name = false)
    (hesc : text ≠ "escape") :
    (send_text_to_window c text window_name send_newline).success = true ∧
    (send_text_to_window c text window_name send_newline).ops =
      KeyOp.keystrokes text window_name ::
        (if send_newline then [KeyOp.keyPress "enter" window_name] else []) := by
  unfold send_text_to_window
  simp [hmap, hwn, hesc]

/-- C2 witness: the amended statement evaluated at a concrete input. -/
theorem send_text_literal_witness :
    (send_text_to_window ⟨["editor"], none⟩ "hi" none true).ops =
      [KeyOp.keystrokes "hi" none, KeyOp.keyPress "enter" none] := by
  have h := send_text_literal ⟨["editor"], none⟩ "hi" none true
    (by decide) (by decide) (by decide)
  simpa using h.2

/-- C3: while a recording is running, `start_action_recording` fails with
the "Recording already in progress" error, leaves the global state (and
hence the active session, which keeps recording) untouched, and installs no
new session; the single `_recorder` slot means at most one session is ever
active. -/
theorem start_while_running_rejected (g : GlobalState) (dw : Option String)
    (hk : Option (List HotkeyItem)) (mw dcw : ℚ) (h : isRunning g = true) :
    start_action_recording g dw hk mw dcw =
      (⟨false, some "Recording already in progress", []⟩, g) ∧
    isRunning (start_action_recording g dw hk mw dcw).2 = true := by
  unfold start_action_recording
  simp [h]

/-- C3 witness: the rejection at a concrete running state. -/
theorem start_while_running_rejected_witness :
    start_action_recording
        ⟨some ⟨⟨none, [], 1 / 4, 7 / 20⟩, true, []⟩, none⟩ none none (1 / 4) (7 / 20) =
      (⟨false, some "Recording already in progress", []⟩,
        ⟨some ⟨⟨none, [], 1 / 4, 7 / 20⟩, true, []⟩, none⟩) := by
  exact (start_while_running_rejected
    ⟨some ⟨⟨none, [], 1 / 4, 7 / 20⟩, true, []⟩, none⟩ none none (1 / 4) (7 / 20) rfl).1

/-- C4: `stop_action_recording` without an active Recording session fails
with the "No active recording" error and changes no state; with a Recording
session it returns the recorded action sequence, clears the session, and a
subsequent start is accepted. -/
theorem stop_lifecycle (g : GlobalState) :
    (∀ stf wok, isRunning g = false →
      stop_action_recording g stf wok =
        (⟨false, some "No active recording", none, none, none⟩, g)) ∧
    (∀ r, g.recorder = some r → r.running = true →
      (stop_action_recording g none true).1.success = true ∧
      (stop_action_recording g none true).1.actions = some (recordOutput r) ∧
      (stop_action_recording g none true).2.recorder = none ∧
      ∀ dw hk mw dcw,
        (start_action_recording (stop_action_recording g none true).2
          dw hk mw dcw).1.success = true) := by
  constructor
  · intro stf wok h
    unfold stop_action_recording
    cases hg : g.recorder with
    | none => rfl
    | some r =>
        have hr : r.running = false := by
          simpa [isRunning, hg] using h
        simp [hr]
  · intro r hr hrun
    unfold stop_action_recording
    rw [hr]
    simp [hrun, start_action_recording, isRunning]

/-- C4 witness: both branches at concrete states. -/
theorem stop_lifecycle_witness :
    stop_action_recording (⟨none, none⟩ : GlobalState) none true =
      (⟨false, some "No active recording", none, none, none⟩, ⟨none, none⟩) ∧
    (stop_action_recording
        ⟨some ⟨⟨none, [], 1 / 4, 7 / 20⟩, true, []⟩, none⟩ none true).1.success = true := by
  refine ⟨(stop_lifecycle ⟨none, none⟩).1 none true rfl, ?_⟩
  exact ((stop_lifecycle ⟨some ⟨⟨none, [], 1 / 4, 7 / 20⟩, true, []⟩, none⟩).2
    ⟨⟨none, [], 1 / 4, 7 / 20⟩, true, []⟩ rfl rfl).1

/-- Invariant of the interpreter loop: starting at step index `i`, either
every action runs and succeeds (the step indices enumerate
`i, i+1, ...`), or the loop stops at the first failing index `j`, having
attempted exactly the steps `i..j`, all steps before `j` succeeding. -/
theorem runAux_spec (c : Collab) :
    ∀ (actions : List Action) (env : Env) (i : ℕ),
      ((runAux c actions env i).2 = none ∧
        (runAux c actions env i).1.map StepResult.index = List.range' i actions.length ∧
        ∀ s ∈ (runAux c actions env i).1, s.success = true) ∨
      (∃ j, (runAux c actions env i).2 = some j ∧ i ≤ j ∧ j < i + actions.length ∧
        (runAux c actions env i).1.map StepResult.index = List.range' i (j - i + 1) ∧
        (∀ s ∈ (runAux c actions env i).1, s.index < j → s.success = true) ∧
        (∀ s ∈ (runAux c actions env i).1, s.index = j → s.success = false)) := by
  intro actions
  induction actions with
  | nil => intro env i; left; simp [runAux]
  | cons a rest ih =>
      intro env i
      cases hx : execAction c env a with
      | error e =>
          right
          refine ⟨i, ?_, le_refl i, ?_, ?_, ?_, ?_⟩
          · simp [runAux, hx]
          · simp only [List.length_cons]
            omega
          · simp [runAux, hx, List.range']
          · intro s hs hlt
            simp only [runAux, hx, List.mem_singleton] at hs
            subst hs
            simp at hlt
          · intro s hs _
            simp only [runAux, hx, List.mem_singleton] at hs
            subst hs
            rfl
      | ok env2 =>
          rcases ih env2 (i + 1) with ⟨h1, h2, h3⟩ | ⟨j, hj, hij, hlt, hmap, hb, ha⟩
          · left
            simp only [runAux, hx]
            refine ⟨h1, ?_, ?_⟩
            · simp only [List.map_cons, h2, List.length_cons]
              rw [List.range'_succ]
            · intro s hs
              rcases List.mem_cons.mp hs with hs | hs
              · subst hs; rfl
              · exact h3 s hs
          · right
            refine ⟨j, ?_⟩
            simp only [runAux, hx]
            have hij2 : i ≤ j := le_trans (Nat.le_succ i) hij
            refine ⟨hj, hij2, by simp only [List.length_cons]; omega, ?_, ?_, ?_⟩
            · have hsub : j - i + 1 = (j - (i + 1) + 1) + 1 := by omega
              rw [hsub, List.range'_succ]
              simp only [List.map_cons, hmap]
            · intro s hs _
              rcases List.mem_cons.mp hs with hs | hs
              · subst hs; rfl
              · exact hb s hs (by assumption)
            · intro s hs hseq
              rcases List.mem_cons.mp hs with hs | hs
              · subst hs
                exfalso
                simp only at hseq
                omega
              · exact ha s hs hseq

/-- C1: `run(S, V)` either reports success for every step, or reports
overall success=false together with the index of the first failing action,
and the attempted steps are exactly the prefix up to and including that
index: nothing after the failing index is attempted. -/
theorem run_fail_fast (c : Collab) (actions : List Action) (vars : Env) :
    ((run c actions vars).success = true ∧
      (run c actions vars).failedAt = none ∧
      (run c actions vars).steps.map StepResult.index = List.range actions.length ∧
      ∀ s ∈ (run c actions vars).steps, s.success = true) ∨
    (∃ i, (run c actions vars).success = false ∧
      (run c actions vars).failedAt = some i ∧ i < actions.length ∧
      (run c actions vars).steps.map StepResult.index = List.range (i + 1) ∧
      (∀ s ∈ (run c actions vars).steps, s.index < i → s.success = true) ∧
      (∀ s ∈ (run c actions vars).steps, s.index = i → s.success = false)) := by
  rcases runAux_spec c actions vars 0 with ⟨h1, h2, h3⟩ | ⟨j, hj, _, hlt, hmap, hb, ha⟩
  · left
    refine ⟨?_, ?_, ?_, ?_⟩
    · show (runAux c actions vars 0).2.isNone = true
      simp [h1]
    · exact h1
    · rw [List.range_eq_range']
      exact h2
    · exact h3
  · right
    refine ⟨j, ?_, hj, by simpa using hlt, ?_, hb, ha⟩
    · show (runAux c actions vars 0).2.isNone = false
      simp [hj]
    · rw [List.range_eq_range']
      simpa using hmap

/-- C8 counterexample: a recording session that captured no events stops
successfully with the empty sequence, which is stored as the last recorded
actions, yet a subsequent `save_sequence` with actions omitted and no file
path does not save it: the Python truthiness test
`if file_path is None and _last_recorded_actions:` treats the empty list as
"no recent recording" and the call fails. -/
theorem stop_then_save_empty_cex :
    (stop_action_recording ⟨some ⟨⟨none, [], 1 / 4, 7 / 20⟩, true, []⟩, none⟩
        none true).1.success = true ∧
    (stop_action_recording ⟨some ⟨⟨none, [], 1 / 4, 7 / 20⟩, true, []⟩, none⟩
        none true).1.actions = some [] ∧
    (stop_action_recording ⟨some ⟨⟨none, [], 1 / 4, 7 / 20⟩, true, []⟩, none⟩
        none true).2.lastRecorded = some [] ∧
    (save_sequence
        (stop_action_recording ⟨some ⟨⟨none, [], 1 / 4, 7 / 20⟩, true, []⟩, none⟩
          none true).2 "demo" none none).success = false ∧
    (save_sequence
        (stop_action_recording ⟨some ⟨⟨none, [], 1 / 4, 7 / 20⟩, true, []⟩, none⟩
          none true).2 "demo" none none).savedActions = none := by
  refine ⟨rfl, rfl, rfl, ?_, ?_⟩ <;> decide

/-- C8 (amended): after a successful stop the returned sequence is always
stored as the last recorded actions, and provided that sequence is
non-empty (the code treats an empty recorded list as no recent recording), a
subsequent `save_sequence` with actions omitted and no file path saves
exactly that sequence. -/
theorem stop_stores_last_recorded (g : GlobalState) (r : SequenceRecorder)
    (hr : g.recorder = some r) (hrun : r.running = true) (name : String)
    (hname : ¬ pyStrip name = "") (hne : recordOutput r ≠ []) :
    (stop_action_recording g none true).1.success = true ∧
    (stop_action_recording g none true).1.actions = some (recordOutput r) ∧
    (stop_action_recording g none true).2.lastRecorded = some (recordOutput r) ∧
    (save_sequence (stop_action_recording g none true).2 name none none).success
      = true ∧
    (save_sequence (stop_action_recording g none true).2 name none none).savedActions
      = some (recordOutput r) := by
  unfold stop_action_recording
  rw [hr]
  simp [hrun, save_sequence, hname, hne]

/-- C8 witness: a one-event recording stops, is stored, and is saved by a
subsequent `save_sequence` with actions omitted. -/
theorem stop_stores_last_recorded_witness :
    (save_sequence
        (stop_action_recording
          ⟨some ⟨⟨none, [], 1 / 4, 7 / 20⟩, true,
            [RawEvent.keyDown (KeyId.other "a") 0]⟩, none⟩ none true).2
        "demo" none none).savedActions = some [Action.key "a" none] := by
  have h := stop_stores_last_recorded
    ⟨some ⟨⟨none, [], 1 / 4, 7 / 20⟩, true,
      [RawEvent.keyDown (KeyId.other "a") 0]⟩, none⟩
    ⟨⟨none, [], 1 / 4, 7 / 20⟩, true, [RawEvent.keyDown (KeyId.other "a") 0]⟩
    rfl rfl "demo" (by decide) (by decide)
  exact h.2.2.2.2

/-- Membership in a Python-dict-style insert: the new pair is present, and
old pairs survive unless their key was overwritten. -/
theorem mem_insertKey (m : List (ℤ × String)) (k : ℤ) (v : String)
    (k2 : ℤ) (v2 : String) :
    (k2, v2) ∈ insertKey m k v ↔
      ((k2, v2) ∈ m ∧ k2 ≠ k) ∨ (k2 = k ∧ v2 = v) := by
  unfold insertKey
  simp [List.mem_filter, List.mem_append]

/-- Every pair in the accumulated hotkey map comes either from the initial
accumulator or from a well-formed item of the list. -/
theorem parseHotkeysAux_mem (items : List HotkeyItem) :
    ∀ (m : List (ℤ × String)) (k : ℤ) (v : String),
      (k, v) ∈ parseHotkeysAux m items →
      (k, v) ∈ m ∨ ∃ i ∈ items, i.fn = some k ∧ itemName i = v ∧
        1 ≤ k ∧ k ≤ 12 ∧ v ≠ "" := by
  induction items with
  | nil => intro m k v h; exact Or.inl h
  | cons i rest ih =>
      intro m k v h
      rcases ih (hotkeyStep m i) k v h with h2 | ⟨j, hj, hw⟩
      · cases hfn : i.fn with
        | none =>
            rw [show hotkeyStep m i = m by simp [hotkeyStep, hfn]] at h2
            exact Or.inl h2
        | some fn =>
            by_cases hc : 1 ≤ fn ∧ fn ≤ 12 ∧ itemName i ≠ ""
            · rw [show hotkeyStep m i = insertKey m fn (itemName i) by
                simp [hotkeyStep, hfn, hc]] at h2
              rcases (mem_insertKey m fn (itemName i) k v).mp h2 with
                ⟨hm, _⟩ | ⟨hk, hv⟩
              · exact Or.inl hm
              · subst hk
                subst hv
                exact Or.inr ⟨i, List.mem_cons_self i rest, hfn, rfl,
                  hc.1, hc.2.1, hc.2.2⟩
            · rw [show hotkeyStep m i = m by simp [hotkeyStep, hfn, hc]] at h2
              exact Or.inl h2
      · exact Or.inr ⟨j, List.mem_cons_of_mem i hj, hw⟩

/-- A key present in the accumulator stays present through the rest of the
hotkey loop (later items can only overwrite its value). -/
theorem parseHotkeysAux_keys (items : List HotkeyItem) :
    ∀ (m : List (ℤ × String)) (k : ℤ),
      (∃ v, (k, v) ∈ m) → ∃ v, (k, v) ∈ parseHotkeysAux m items := by
  induction items with
  | nil => intro m k h; exact h
  | cons i rest ih =>
      intro m k h
      apply ih
      obtain ⟨v, hv⟩ := h
      cases hfn : i.fn with
      | none =>
          rw [show hotkeyStep m i = m by simp [hotkeyStep, hfn]]
          exact ⟨v, hv⟩
      | some fn =>
          by_cases hc : 1 ≤ fn ∧ fn ≤ 12 ∧ itemName i ≠ ""
          · rw [show hotkeyStep m i = insertKey m fn (itemName i) by
              simp [hotkeyStep, hfn, hc]]
            by_cases hk : k = fn
            · exact ⟨itemName i,
                (mem_insertKey m fn (itemName i) k (itemName i)).mpr
                  (Or.inr ⟨hk, rfl⟩)⟩
            · exact ⟨v, (mem_insertKey m fn (itemName i) k v).mpr
                (Or.inl ⟨hv, hk⟩)⟩
          · rw [show hotkeyStep m i = m by simp [hotkeyStep, hfn, hc]]
            exact ⟨v, hv⟩

/-- Every well-formed item of the list lands its key in the accumulated
hotkey map. -/
theorem parseHotkeysAux_complete (items : List HotkeyItem) :
    ∀ (m : List (ℤ × String)), ∀ i ∈ items, ∀ k : ℤ,
      i.fn = some k → 1 ≤ k → k ≤ 12 → itemName i ≠ "" →
      ∃ v, (k, v) ∈ parseHotkeysAux m items := by
  induction items with
  | nil =>
      intro m i hi
      exact absurd hi (List.not_mem_nil i)
  | cons j rest ih =>
      intro m i hi k hfn h1 h2 hn
      rcases List.mem_cons.mp hi with hi | hi
      · subst hi
        show ∃ v, (k, v) ∈ parseHotkeysAux (hotkeyStep m i) rest
        apply parseHotkeysAux_keys
        rw [show hotkeyStep m i = insertKey m k (itemName i) by
          simp [hotkeyStep, hfn, h1, h2, hn]]
        exact ⟨itemName i,
          (mem_insertKey m k (itemName i) k (itemName i)).mpr
            (Or.inr ⟨rfl, rfl⟩)⟩
      · exact ih (hotkeyStep m j) i hi k hfn h1 h2 hn

/-- C9 counterexample: the out-of-range hotkey entry fn=13 is neither
incorporated into the hotkey map nor reported as a failure:
`start_action_recording` silently drops it (`except: pass` plus a silent
range check) and still succeeds. -/
theorem hotkey_out_of_range_silently_dropped :
    ¬ (((13 : ℤ), "w") ∈ parseHotkeys [⟨some 13, some "w"⟩] ∨
      (start_action_recording ⟨none, none⟩ none (some [⟨some 13, some "w"⟩])
        (1 / 4) (7 / 20)).1.success = false) := by
  decide

/-- C9 (amended): `start_action_recording` succeeds for every hotkey list
(when idle); entries whose `fn` converts to an integer in 1..12 and whose
window name stringifies to a non-empty string are incorporated into the
session's hotkey map (later entries overriding earlier ones with the same
key), and all other entries are silently skipped with no reported
failure. -/
theorem hotkey_map_characterization (items : List HotkeyItem) :
    (∀ (g : GlobalState) (dw : Option String) (mw dcw : ℚ),
      isRunning g = false →
      (start_action_recording g dw (some items) mw dcw).1.success = true) ∧
    (∀ (k : ℤ) (v : String), (k, v) ∈ parseHotkeys items →
      ∃ i ∈ items, i.fn = some k ∧ itemName i = v ∧
        1 ≤ k ∧ k ≤ 12 ∧ v ≠ "") ∧
    (∀ i ∈ items, ∀ k : ℤ, i.fn = some k → 1 ≤ k → k ≤ 12 →
      itemName i ≠ "" → ∃ v, (k, v) ∈ parseHotkeys items) := by
  refine ⟨?_, ?_, ?_⟩
  · intro g dw mw dcw h
    unfold start_action_recording
    simp [h]
  · intro k v h
    rcases parseHotkeysAux_mem items [] k v h with h | h
    · exact absurd h (List.not_mem_nil _)
    · exact h
  · intro i hi k hfn h1 h2 hn
    exact parseHotkeysAux_complete items [] i hi k hfn h1 h2 hn

/-- C9 witness: a well-formed entry is incorporated and start succeeds. -/
theorem hotkey_map_characterization_witness :
    (start_action_recording ⟨none, none⟩ none (some [⟨some 3, some "term"⟩])
      (1 / 4) (7 / 20)).1.success = true ∧
    ∃ v, ((3 : ℤ), v) ∈ parseHotkeys [⟨some 3, some "term"⟩] := by
  constructor
  · exact (hotkey_map_characterization [⟨some 3, some "term"⟩]).1
      ⟨none, none⟩ none (1 / 4) (7 / 20) rfl
  · exact (hotkey_map_characterization [⟨some 3, some "term"⟩]).2.2
      ⟨some 3, some "term"⟩ (List.mem_singleton.mpr rfl) 3 rfl
      (by norm_num) (by norm_num) (by decide)

/-- C10: when `stop_action_recording` is asked to save and the file write
fails, it returns success=false, yet the recording is already terminated
(a second stop fails with "No active recording"), the captured actions are
stored as the last recorded actions, and the captured actions are included
in the error response: stopping is not atomic with the save. -/
theorem stop_save_failure_not_atomic (g : GlobalState) (r : SequenceRecorder)
    (hr : g.recorder = some r) (hrun : r.running = true) (p : String) :
    (stop_action_recording g (some p) false).1.success = false ∧
    (stop_action_recording g (some p) false).1.actions = some (recordOutput r) ∧
    (stop_action_recording g (some p) false).2.lastRecorded = some (recordOutput r) ∧
    (stop_action_recording (stop_action_recording g (some p) false).2 none true).1 =
      ⟨false, some "No active recording", none, none, none⟩ := by
  unfold stop_action_recording
  rw [hr]
  simp [hrun]

/-- C10 witness: the non-atomic stop at a concrete running state. -/
theorem stop_save_failure_not_atomic_witness :
    (stop_action_recording
        ⟨some ⟨⟨none, [], 1 / 4, 7 / 20⟩, true, []⟩, none⟩ (some "out.json") false).1.success
      = false ∧
    (stop_action_recording
        ⟨some ⟨⟨none, [], 1 / 4, 7 / 20⟩, true, []⟩, none⟩
        (some "out.json") false).2.lastRecorded = some [] := by
  have h := stop_save_failure_not_atomic
    ⟨some ⟨⟨none, [], 1 / 4, 7 / 20⟩, true, []⟩, none⟩
    ⟨⟨none, [], 1 / 4, 7 / 20⟩, true, []⟩ rfl rfl "out.json"
  exact ⟨h.1, h.2.2.1⟩

end Pipecat
